import Mathlib

/-!
Shallow embedding of the PyLaTeX command/parameter core
(`pylatex/base_classes/command.py`) and of the math composites
(`pylatex/math.py`), together with theorems settling the frozen claims
about the natural-language specification of the library.

Modelling conventions:
* Python strings are `String`; machine-level details (hash values) are
  modelled by explicit computable functions of the same data Python hashes.
* Keyword-argument dictionaries are insertion-ordered association lists
  (`List (String × String)`), exactly the iteration order `dict.items()`
  exposes on CPython 3.7+, which is the order the source serialises them in.
* A Python function that contains no `raise`/`assert` is embedded as a total
  function; one that can fail (`Determinant.__init__`'s assert) returns
  `Except String _`.
-/

namespace PyLatex

/-- `str.join` of Python: empty for `[]`, the single element for `[a]`,
otherwise the elements interleaved with the separator. -/
def joinWith (sep : String) : List String → String
  | [] => ""
  | [a] => a
  | a :: b :: rest => a ++ sep ++ joinWith sep (b :: rest)

/-- The concrete kind of a parameter container: the source's two concrete
subclasses `Options` and `Arguments` of `Parameters`. -/
inductive PKind where
  | options
  | arguments
deriving DecidableEq, Repr

/-- State of a `Parameters` object after `Parameters.__init__` ran:
`_positional_args` (a list) and `_key_value_args` (an insertion-ordered
dict), plus the concrete class (`type(self)`) recorded as `kind`.
Parameter values are modelled as strings (the stringifiable scalars the
claims exercise). -/
structure Parameters where
  kind : PKind
  positional : List String
  keyed : List (String × String)
deriving DecidableEq, Repr

/-- The `'{k}={v}'.format(...)` rendering of one keyword pair used by
`Parameters._list_args_kwargs`. -/
def fmtKV (p : String × String) : String := p.1 ++ "=" ++ p.2

/-- `Parameters._list_args_kwargs`: all positional values, in order, followed
by every keyword pair rendered `key=value` in dict iteration order. -/
def listArgsKwargs (P : Parameters) : List String :=
  P.positional ++ P.keyed.map fmtKV

/-- `Parameters.__key`: the tuple of `_list_args_kwargs`. -/
def paramsKey (P : Parameters) : List String := listArgsKwargs P

/-- `Parameters.__eq__`: `type(self) == type(other)` and the two key tuples
are equal. -/
def paramsEq (P Q : Parameters) : Bool :=
  decide (P.kind = Q.kind) && decide (paramsKey P = paramsKey Q)

/-- A computable stand-in for CPython's opaque string hash: any deterministic
function of the character data. -/
def strHash (s : String) : Nat :=
  s.foldl (fun a c => a * 131 + c.toNat) 7

/-- Stand-in for CPython's tuple hash of a tuple of strings: a deterministic
combination of the element hashes. -/
def listHash (l : List String) : Nat :=
  l.foldl (fun a s => a * 1000003 + strHash s) 5381

/-- `Parameters.__hash__`: the hash of the key tuple. -/
def paramsHash (P : Parameters) : Nat := listHash (paramsKey P)

/-- `Parameters._format_contents(prefix, separater, suffix)`: empty output
for an empty parameter list, otherwise the joined list wrapped by the two
delimiters.  (`map(str, params)` is the identity here: the modelled values
are already strings.) -/
def formatContents (pre sep suf : String) (P : Parameters) : String :=
  if (listArgsKwargs P).length ≤ 0 then ""
  else pre ++ joinWith sep (listArgsKwargs P) ++ suf

/-- `Options.dumps` / `Arguments.dumps`, dispatched on the concrete class:
`[`,`,`,`]` for options, braces for arguments. -/
def Parameters.dumps (P : Parameters) : String :=
  match P.kind with
  | .options => formatContents "[" "," "]" P
  | .arguments => formatContents "\x7b" "\x7d\x7b" "\x7d" P

/-- State of a `Command` object: the name, the two always-present containers
and the optional extra-arguments container (`None` ↔ `none`). -/
structure Command where
  command : String
  arguments : Parameters
  options : Parameters
  extraArguments : Option Parameters
deriving DecidableEq, Repr

/-- A value passed for one parameter slot of `Command.__init__`: a raw string
scalar, a list of scalars, or an existing container object.  (Python `None`
is the surrounding `Option`.) -/
inductive ParamArg where
  | scalar (s : String)
  | seq (l : List String)
  | container (p : Parameters)
deriving DecidableEq, Repr

/-- A fresh empty container of a kind: `Options()` / `Arguments()`. -/
def emptyParams (k : PKind) : Parameters := ⟨k, [], []⟩

/-- Stand-in for the value stored when a container of the wrong kind is
wrapped as the single positional element of a fresh container
(`parameter_cls(parameters)` with a non-iterable `Parameters` argument:
the object itself becomes the one positional value; no claim renders it,
so any deterministic textual stand-in is faithful for the claims). -/
def containerRepr (p : Parameters) : String :=
  "<Parameters " ++ joinWith "," (listArgsKwargs p) ++ ">"

/-- `Command._set_parameters(parameters, argument_type)`.  The required class
is `Options` for the options slot and `Arguments` otherwise; `None` becomes a
fresh empty container, a value of the required class is stored as-is, and any
other value is coerced by `parameter_cls(parameters)`: a scalar becomes one
positional value, a list is flattened into the positional values
(`Parameters.__init__`'s single-iterable rule), and a container of the wrong
kind — which, extending only `LatexObject`, is not iterable — becomes a
single positional value.  The source contains no `raise`: the function is
total. -/
def setParameters (k : PKind) (a : Option ParamArg) : Parameters :=
  match a with
  | none => emptyParams k
  | some (.scalar s) => ⟨k, [s], []⟩
  | some (.seq l) => ⟨k, l, []⟩
  | some (.container p) => if p.kind = k then p else ⟨k, [containerRepr p], []⟩

/-- `Command.__init__(command, arguments, options, extra_arguments)`:
each slot normalised by `_set_parameters`; `extra_arguments is None` is kept
as the distinct absent state. -/
def mkCommand (n : String) (args opts extra : Option ParamArg) : Command :=
  { command := n
    arguments := setParameters .arguments args
    options := setParameters .options opts
    extraArguments :=
      match extra with
      | none => none
      | some ea => some (setParameters .arguments (some ea)) }

/-- `Command.dumps`: options before arguments when `extra_arguments` is
absent; arguments, then options, then extra arguments when it is present. -/
def Command.dumps (c : Command) : String :=
  let options := c.options.dumps
  let arguments := c.arguments.dumps
  match c.extraArguments with
  | none => "\\" ++ c.command ++ options ++ arguments
  | some e => "\\" ++ c.command ++ arguments ++ options ++ e.dumps

/-- Equality of two optional containers as Python compares the last component
of `Command.__key` tuples: `None == None`, a container against `None` is
`False`, two containers use `Parameters.__eq__`. -/
def optParamsEq : Option Parameters → Option Parameters → Bool
  | none, none => true
  | some p, some q => paramsEq p q
  | _, _ => false

/-- `Command.__eq__` restricted to two commands: the `Command.__key` tuples
`(command, arguments, options, extra_arguments)` compared componentwise with
the components' own equalities. -/
def commandEq (c d : Command) : Bool :=
  c.command == d.command
    && paramsEq c.arguments d.arguments
    && paramsEq c.options d.options
    && optParamsEq c.extraArguments d.extraArguments

/-- Hash of the last `Command.__key` component: `hash(None)` is a constant,
a container contributes its own `Parameters.__hash__`. -/
def optHash : Option Parameters → Nat
  | none => 17
  | some p => 19 + paramsHash p

/-- `Command.__hash__`: a deterministic combination of the hashes of the
`Command.__key` components (name, the two containers' key hashes, and the
optional extra container, `None` hashing to a constant). -/
def commandHash (c : Command) : Nat :=
  ((strHash c.command * 1000003 + paramsHash c.arguments) * 1000003
      + paramsHash c.options) * 1000003
    + optHash c.extraArguments

/-- An instance of `Command` or of any of its subclasses: the concrete
subclass name together with the `Command` state it carries. -/
structure CommandInst where
  subclass : String
  data : Command
deriving DecidableEq, Repr

/-- An arbitrary Python value as `Command.__eq__` can receive it: an instance
of some `Command` subclass, or any value that is not a `Command` instance. -/
inductive PyObj where
  | inst (i : CommandInst)
  | other (tag : String)
deriving DecidableEq, Repr

/-- `Command.__eq__(self, other)` over arbitrary values: the
`isinstance(other, Command)` test admits every subclass instance and then
compares keys; any non-`Command` value yields `False` (never an error). -/
def CommandInst.eqPy (self : CommandInst) (other : PyObj) : Bool :=
  match other with
  | .inst j => commandEq self.data j.data
  | .other _ => false

/-- `Command.__hash__` of a (possibly subclassed) instance: computed from the
`Command` state only. -/
def CommandInst.hashPy (self : CommandInst) : Nat := commandHash self.data

/-! ### `pylatex/math.py` -/

/-- State of a `Math` container: the `inline` flag, the child content, and
the stored `escape` flag (unused by `dumps`).  The constructor takes exactly
these keyword parameters — there is no `dollar` flag. -/
structure Math where
  inline : Bool
  data : List String
  escape : Option Bool
deriving DecidableEq, Repr

/-- Modelled from the spec: `Container.dumps_content`, a collaborator outside
this core (`pylatex/base_classes/latex_object.py` is not part of the command
core), joins the children with the class's `content_separator`, which `Math`
sets to a single space. -/
def Math.dumpsContent (m : Math) : String := joinWith " " m.data

/-- `Math.dumps`: `$...$` when inline, otherwise the explicit display
markers `\[%\n ... %\n\]`. -/
def Math.dumps (m : Math) : String :=
  if m.inline then "$" ++ m.dumpsContent ++ "$"
  else "\\[%\n" ++ m.dumpsContent ++ "%\n\\]"

/-- `dollar(x)`: `Math(data=x, inline=True, escape=False)`. -/
def dollar (x : String) : Math := ⟨true, [x], some false⟩

/-- `ddollar(x)`: `Math(data=x, inline=False, escape=False)`. -/
def ddollar (x : String) : Math := ⟨false, [x], some false⟩

/-- A 2-D numpy array as the matrix composites consume it: a shape and the
row-major rows of (stringified) cells. -/
structure Grid where
  rows : Nat
  cols : Nat
  data : List (List String)
deriving DecidableEq, Repr

/-- The shape data is consistent: `data` holds `rows` rows of `cols` cells. -/
def Grid.wf (g : Grid) : Bool :=
  g.data.length == g.rows && g.data.all (fun r => r.length == g.cols)

/-- Row-major cell access `matrix[y][x]`. -/
def Grid.cell (g : Grid) (y x : Nat) : String :=
  (g.data.getD y []).getD x ""

/-- numpy `.T` on a 2-D array. -/
def Grid.transpose (g : Grid) : Grid :=
  ⟨g.cols, g.rows,
    (List.range g.cols).map fun j => (List.range g.rows).map fun i => g.cell i j⟩

/-- numpy `reshape(1, m*n)` on a 2-D array: one row holding the row-major
flattening. -/
def Grid.reshapeRow (g : Grid) : Grid :=
  ⟨1, g.rows * g.cols, [g.data.flatten]⟩

/-- State of a `Matrix` environment: the owned grid, the environment name
`latex_name`, the bracket-style tag `_mtype` and the alignment argument. -/
structure Matrix where
  matrix : Grid
  latexName : String
  mtype : String
  alignment : Option String
deriving DecidableEq, Repr

/-- `Matrix.__init__(matrix, mtype, alignment)`: stores the grid, sets
`latex_name = mtype + 'matrix'`, appending `'*'` when an alignment is
supplied. -/
def mkMatrix (m : Grid) (mtype : String) (alignment : Option String) : Matrix :=
  { matrix := m
    latexName := mtype ++ "matrix" ++ (match alignment with
      | some _ => "*"
      | none => "")
    mtype := mtype
    alignment := alignment }

/-- `Matrix.dumps_content`: `np.ndenumerate` walks the cells row-major; a
`&` is emitted before every cell with `x` truthy (nonzero), and
`'\\' + '%\n'` after the last cell of every row but the last. -/
def Matrix.dumpsContent (M : Matrix) : String :=
  let g := M.matrix
  (List.range g.rows).foldl
    (fun acc y =>
      (List.range g.cols).foldl
        (fun acc2 x =>
          let acc3 := if x ≠ 0 then acc2 ++ "&" else acc2
          let acc4 := acc3 ++ g.cell y x
          if x = g.cols - 1 ∧ y ≠ g.rows - 1 then acc4 ++ "\\\\" ++ "%\n"
          else acc4)
        acc)
    ""

/-- `Determinant.__init__(matrix)`: builds the underlying matrix with
`mtype='v'` and then asserts the grid is square (`shape[1] == shape[0]`;
`ndim == 2` holds for every `Grid`); the failed assert is the error case. -/
def mkDeterminant (m : Grid) (alignment : Option String) : Except String Matrix :=
  let M := mkMatrix m "v" alignment
  if M.matrix.cols = M.matrix.rows then .ok M
  else .error "AssertionError"

/-- `Vector.__init__`'s reshape step on a 2-D grid: reshaped to a single row
only when both dimensions exceed 1, otherwise the grid is left as it is. -/
def vectorReshape (g : Grid) : Grid :=
  if 1 < g.rows ∧ 1 < g.cols then g.reshapeRow else g

/-- `Vector.__init__(vec, mtype)` on a 2-D grid: the underlying matrix with
the reshape step applied to the owned grid. -/
def mkVector (vec : Grid) (mtype : String) : Matrix :=
  let M := mkMatrix vec mtype none
  { M with matrix := vectorReshape M.matrix }

/-- `ColumnVector.__init__`: the `Vector` construction followed by
`self.matrix = self.matrix.T`. -/
def mkColumnVector (vec : Grid) (mtype : String) : Matrix :=
  let M := mkVector vec mtype
  { M with matrix := M.matrix.transpose }

/-! ### Constructor-argument handling of `Parameters.__init__` -/

/-- A Python value passed positionally to `Parameters.__init__`: a string
(iterable, but excluded from flattening), a number (not iterable), or a list
(the non-string iterable of the flattening rule). -/
inductive PyVal where
  | str (s : String)
  | num (n : Int)
  | list (l : List PyVal)

/-- `hasattr(v, '__iter__')`: strings and lists are iterable, numbers are
not. -/
def PyVal.canIter : PyVal → Bool
  | .str _ => true
  | .num _ => false
  | .list _ => true

/-- `isinstance(v, str)`. -/
def PyVal.isString : PyVal → Bool
  | .str _ => true
  | _ => false

/-- `list(v)` for an iterable `v`: a list yields its elements, a string its
characters (one-character strings). -/
def PyVal.iterElems : PyVal → List PyVal
  | .str s => s.data.map fun ch => .str (String.mk [ch])
  | .num _ => []
  | .list l => l

/-- The positional part of `Parameters.__init__`: when exactly one positional
argument is supplied and it is iterable but not a string, `args = args[0]`
before `self._positional_args = list(args)`; otherwise the arguments are kept
as given. -/
def initPositional (args : List PyVal) : List PyVal :=
  match args with
  | [a] => if a.canIter && !a.isString then a.iterElems else [a]
  | _ => args

/-! ### Helper lemmas -/

/-- Python-equal parameter containers have equal key tuples. -/
theorem paramsEq_key {P Q : Parameters} (h : paramsEq P Q = true) :
    paramsKey P = paramsKey Q := by
  simp only [paramsEq, Bool.and_eq_true, decide_eq_true_eq] at h
  exact h.2

/-- Spec-side notion used by the equality claim: two keyword dictionaries are
equal as mappings — every key looks up to the same value. -/
def dictEqProp (d e : List (String × String)) : Prop :=
  ∀ k, d.lookup k = e.lookup k

/-! ### Theorems for the claims -/

/-- C1: `Command.dumps` emits `\name` then options then arguments when
`extra_arguments` is absent, and `\name` then arguments then options then
extra arguments when it is present (even when the extra block renders
empty); in particular `Command("c", arguments="a", options="o")` renders
`\c[o]{a}` and adding `extra_arguments="e"` renders `\c{a}[o]{e}`. -/
theorem command_dumps_layout :
    (∀ c : Command, c.extraArguments = none →
      c.dumps = "\\" ++ c.command ++ c.options.dumps ++ c.arguments.dumps) ∧
    (∀ (c : Command) (e : Parameters), c.extraArguments = some e →
      c.dumps = "\\" ++ c.command ++ c.arguments.dumps ++ c.options.dumps
        ++ e.dumps) ∧
    (mkCommand "c" (some (.scalar "a")) (some (.scalar "o")) none).dumps
      = "\\c[o]\x7ba\x7d" ∧
    (mkCommand "c" (some (.scalar "a")) (some (.scalar "o"))
        (some (.scalar "e"))).dumps = "\\c\x7ba\x7d[o]\x7be\x7d" ∧
    (mkCommand "c" (some (.scalar "a")) (some (.scalar "o"))
        (some (.container (emptyParams .arguments)))).dumps
      = "\\c\x7ba\x7d[o]" := by
  refine ⟨?_, ?_, by decide, by decide, by decide⟩
  · intro c h
    simp [Command.dumps, h]
  · intro c e h
    simp [Command.dumps, h]

/-- Witness for C1 at a concrete command with no extra arguments. -/
theorem command_dumps_layout_witness :
    (mkCommand "x" none none none).dumps
      = "\\" ++ (mkCommand "x" none none none).command
        ++ (mkCommand "x" none none none).options.dumps
        ++ (mkCommand "x" none none none).arguments.dumps :=
  command_dumps_layout.1 (mkCommand "x" none none none) rfl

/-- C3 counterexample: no value of the one configuration flag of `Math`
produces a `$$...$$` rendering — `Math` has no `dollar` flag, and the
non-inline rendering is the explicit `\[%\n ... %\n\]` markers, so the
claimed `Math(inline=False, dollar=True).render() == "$$...$$"` is false. -/
theorem math_no_double_dollar_counterexample :
    Math.dumps ⟨true, ["x"], none⟩ ≠ "$$x$$" ∧
    Math.dumps ⟨false, ["x"], none⟩ ≠ "$$x$$" ∧
    Math.dumps ⟨false, ["x"], none⟩ = "\\[%\nx%\n\\]" := by
  refine ⟨by decide, by decide, by decide⟩

/-- C3 amended: `Math` has exactly one boolean rendering flag, `inline`:
`inline=True` wraps the content in `$...$`, `inline=False` wraps it in the
explicit display markers `\[%\n ... %\n\]`; the two renderings are always
distinct, and `dollar`/`ddollar` are the inline and display shorthands. -/
theorem math_dumps_two_renderings :
    (∀ d e, Math.dumps ⟨true, d, e⟩ = "$" ++ joinWith " " d ++ "$") ∧
    (∀ d e, Math.dumps ⟨false, d, e⟩
      = "\\[%\n" ++ joinWith " " d ++ "%\n\\]") ∧
    (∀ d e e2, Math.dumps ⟨true, d, e⟩ ≠ Math.dumps ⟨false, d, e2⟩) ∧
    (∀ x, (dollar x).dumps = "$" ++ x ++ "$") ∧
    (∀ x, (ddollar x).dumps = "\\[%\n" ++ x ++ "%\n\\]") := by
  refine ⟨fun d e => rfl, fun d e => rfl, ?_, fun x => rfl, fun x => rfl⟩
  intro d e e2 h
  have h2 := congrArg String.data h
  simp [Math.dumps, Math.dumpsContent, String.data_append] at h2

/-- Witness for C3 at concrete content: the inline and display renderings of
the same content differ. -/
theorem math_dumps_two_renderings_witness :
    Math.dumps ⟨true, ["x"], none⟩ ≠ Math.dumps ⟨false, ["x"], none⟩ :=
  math_dumps_two_renderings.2.2.1 ["x"] none none

/-- C5: `Command` construction never fails — `_set_parameters` has no error
path, so the `TypeMismatchError` clause is vacuous: `None` becomes an empty
container of the required kind, a raw scalar or sequence is wrapped into the
required kind, an already-correct container is used as-is, a container of
the wrong kind is coerced by wrapping it as a single positional value, and
every constructed command carries containers of the required kinds. -/
theorem set_parameters_normalizes :
    (∀ k, setParameters k none = emptyParams k) ∧
    (∀ k s, setParameters k (some (.scalar s)) = ⟨k, [s], []⟩) ∧
    (∀ k l, setParameters k (some (.seq l)) = ⟨k, l, []⟩) ∧
    (∀ k p, p.kind = k → setParameters k (some (.container p)) = p) ∧
    (∀ k p, p.kind ≠ k →
      setParameters k (some (.container p)) = ⟨k, [containerRepr p], []⟩) ∧
    (∀ k a, (setParameters k a).kind = k) ∧
    (∀ n args opts extra,
      (mkCommand n args opts extra).arguments.kind = PKind.arguments ∧
      (mkCommand n args opts extra).options.kind = PKind.options) := by
  refine ⟨fun k => rfl, fun k s => rfl, fun k l => rfl, ?_, ?_, ?_, ?_⟩
  · intro k p h
    simp [setParameters, h]
  · intro k p h
    simp [setParameters, h]
  · intro k a
    match a with
    | none => rfl
    | some (.scalar s) => rfl
    | some (.seq l) => rfl
    | some (.container p) =>
      by_cases h : p.kind = k
      · simp [setParameters, h]
      · simp [setParameters, h]
  · intro n args opts extra
    constructor
    · show (setParameters .arguments args).kind = PKind.arguments
      match args with
      | none => rfl
      | some (.scalar s) => rfl
      | some (.seq l) => rfl
      | some (.container p) =>
        by_cases h : p.kind = PKind.arguments
        · simp [setParameters, h]
        · simp [setParameters, h]
    · show (setParameters .options opts).kind = PKind.options
      match opts with
      | none => rfl
      | some (.scalar s) => rfl
      | some (.seq l) => rfl
      | some (.container p) =>
        by_cases h : p.kind = PKind.options
        · simp [setParameters, h]
        · simp [setParameters, h]

/-- Witness for C5: an already-correct container is stored as-is. -/
theorem set_parameters_normalizes_witness :
    setParameters .arguments
        (some (.container ⟨.arguments, ["a"], []⟩)) = ⟨.arguments, ["a"], []⟩ :=
  set_parameters_normalizes.2.2.2.1 .arguments ⟨.arguments, ["a"], []⟩ rfl

/-- C6: `Determinant` construction fails (the source's assert) exactly on
non-square grids, and on a square grid succeeds with the bracket style fixed
to `v`, giving environment name `vmatrix`. -/
theorem determinant_square (g : Grid) :
    (g.cols ≠ g.rows → mkDeterminant g none = .error "AssertionError") ∧
    (g.cols = g.rows →
      mkDeterminant g none = .ok (mkMatrix g "v" none) ∧
      (mkMatrix g "v" none).latexName = "vmatrix") := by
  constructor
  · intro h
    simp [mkDeterminant, mkMatrix, h]
  · intro h
    refine ⟨by simp [mkDeterminant, mkMatrix, h], rfl⟩

/-- Witness for C6: a 2×3 grid is rejected, a 3×3 grid is accepted with
environment name `vmatrix`. -/
theorem determinant_square_witness :
    mkDeterminant ⟨2, 3, [["1", "2", "3"], ["4", "5", "6"]]⟩ none
      = .error "AssertionError" ∧
    mkDeterminant ⟨3, 3, [["1", "0", "0"], ["0", "1", "0"], ["0", "0", "1"]]⟩
        none
      = .ok (mkMatrix ⟨3, 3, [["1", "0", "0"], ["0", "1", "0"],
          ["0", "0", "1"]]⟩ "v" none) :=
  ⟨(determinant_square _).1 (by decide), ((determinant_square _).2 rfl).1⟩

/-- C9: `Parameters.__init__` flattens a single non-string-iterable
positional argument into the positional sequence (each element becomes one
positional value, never nested), and keeps every other argument pattern —
no argument, a single number, a single string, several arguments — as
given. -/
theorem params_init_flatten :
    (∀ l, initPositional [.list l] = l) ∧
    initPositional [] = [] ∧
    (∀ s, initPositional [.str s] = [.str s]) ∧
    (∀ n, initPositional [.num n] = [.num n]) ∧
    (∀ a b rest, initPositional (a :: b :: rest) = a :: b :: rest) :=
  ⟨fun _ => rfl, rfl, fun _ => rfl, fun _ => rfl, fun _ _ _ => rfl⟩

/-- C10: `Command.__eq__` never fails and returns `False` on any
non-`Command` value; equality and hash of command instances ignore the
concrete subclass and depend only on the `(name, arguments, options,
extra_arguments)` key, equal commands hash equal — while `Parameters`
equality additionally requires the identical concrete type, so an `Options`
and an `Arguments` with the same key tuple still compare unequal. -/
theorem command_eq_subclass_blind :
    (∀ (i : CommandInst) (t : String), i.eqPy (.other t) = false) ∧
    (∀ s t c d, CommandInst.eqPy ⟨s, c⟩ (.inst ⟨t, d⟩) = commandEq c d) ∧
    (∀ s t c, CommandInst.hashPy ⟨s, c⟩ = CommandInst.hashPy ⟨t, c⟩) ∧
    (∀ c d, commandEq c d = true → commandHash c = commandHash d) ∧
    (paramsEq ⟨.options, ["a"], []⟩ ⟨.arguments, ["a"], []⟩ = false ∧
      paramsKey ⟨.options, ["a"], []⟩ = paramsKey ⟨.arguments, ["a"], []⟩) := by
  refine ⟨fun i t => rfl, fun s t c d => rfl, fun s t c => rfl, ?_, by decide⟩
  intro c d h
  simp only [commandEq, Bool.and_eq_true, beq_iff_eq] at h
  obtain ⟨⟨⟨h1, h2⟩, h3⟩, h4⟩ := h
  have he : optHash c.extraArguments = optHash d.extraArguments := by
    revert h4
    cases c.extraArguments <;> cases d.extraArguments <;> intro h4
    · rfl
    · simp [optParamsEq] at h4
    · simp [optParamsEq] at h4
    · simp only [optParamsEq] at h4
      simp [optHash, paramsHash, paramsEq_key h4]
  simp only [commandHash, paramsHash]
  rw [h1, paramsEq_key h2, paramsEq_key h3, he]

/-- Witness for C10: two structurally different commands with equal keys
hash equal. -/
theorem command_eq_subclass_blind_witness :
    commandHash ⟨"c", ⟨.arguments, ["k=v"], []⟩, emptyParams .options, none⟩
      = commandHash ⟨"c", ⟨.arguments, [], [("k", "v")]⟩,
          emptyParams .options, none⟩ :=
  command_eq_subclass_blind.2.2.2.1 _ _ (by decide)

/-- C7: `Options.dumps`/`Arguments.dumps` render the empty string when both
sequences are empty, and otherwise wrap the positional values (in order)
followed by the `key=value` renderings with the kind-specific prefix,
separator and suffix; in particular `Options('a','b','c')` renders
`[a,b,c]`, `Options('clip', width=50)` renders `[clip,width=50]`, and
`Arguments('a','b','c')` renders `{a}{b}{c}`. -/
theorem params_dumps_delimiters (P : Parameters) :
    (P.positional = [] → P.keyed = [] → P.dumps = "") ∧
    (P.kind = .options → P.positional ++ P.keyed.map fmtKV ≠ [] →
      P.dumps = "[" ++ joinWith "," (P.positional ++ P.keyed.map fmtKV)
        ++ "]") ∧
    (P.kind = .arguments → P.positional ++ P.keyed.map fmtKV ≠ [] →
      P.dumps = "\x7b"
        ++ joinWith "\x7d\x7b" (P.positional ++ P.keyed.map fmtKV)
        ++ "\x7d") ∧
    Parameters.dumps ⟨.options, ["a", "b", "c"], []⟩ = "[a,b,c]" ∧
    Parameters.dumps ⟨.options, ["clip"], [("width", "50")]⟩
      = "[clip,width=50]" ∧
    Parameters.dumps ⟨.arguments, ["a", "b", "c"], []⟩
      = "\x7ba\x7d\x7bb\x7d\x7bc\x7d" := by
  obtain ⟨k, pos, kv⟩ := P
  refine ⟨?_, ?_, ?_, by decide, by decide, by decide⟩
  · intro h1 h2
    dsimp only at h1 h2
    subst h1
    subst h2
    cases k <;> rfl
  · intro hk hne
    dsimp only at hk hne
    subst hk
    have h : ¬ ((pos ++ kv.map fmtKV).length ≤ 0) := by
      simpa [Nat.le_zero, List.length_eq_zero] using hne
    simp only [Parameters.dumps, formatContents, listArgsKwargs]
    rw [if_neg h]
  · intro hk hne
    dsimp only at hk hne
    subst hk
    have h : ¬ ((pos ++ kv.map fmtKV).length ≤ 0) := by
      simpa [Nat.le_zero, List.length_eq_zero] using hne
    simp only [Parameters.dumps, formatContents, listArgsKwargs]
    rw [if_neg h]

/-- Witness for C7: an empty options container renders as the empty
string. -/
theorem params_dumps_delimiters_witness :
    Parameters.dumps (emptyParams .options) = "" :=
  (params_dumps_delimiters (emptyParams .options)).1 rfl rfl

/-- C2 counterexample: two `Options` whose keyed mappings are equal as
mappings (and whose positional sequences are equal) but were inserted in
different orders are not equal under `Parameters.__eq__`, so the claimed
"equal iff positional sequences equal and keyed mappings equal" fails in
the right-to-left direction. -/
theorem params_eq_insertion_order_counterexample :
    paramsEq ⟨.options, [], [("a", "1"), ("b", "2")]⟩
        ⟨.options, [], [("b", "2"), ("a", "1")]⟩ = false ∧
    Parameters.positional
        (⟨.options, [], [("a", "1"), ("b", "2")]⟩ : Parameters)
      = Parameters.positional ⟨.options, [], [("b", "2"), ("a", "1")]⟩ ∧
    dictEqProp [("a", "1"), ("b", "2")] [("b", "2"), ("a", "1")] := by
  refine ⟨by decide, rfl, ?_⟩
  intro k
  by_cases h1 : k = "a"
  · subst h1
    rfl
  · by_cases h2 : k = "b"
    · subst h2
      rfl
    · have e1 : (k == "a") = false := by simp [h1]
      have e2 : (k == "b") = false := by simp [h2]
      simp [List.lookup, e1, e2]

/-- C2 amended: two parameter containers are Python-equal iff they have the
same concrete kind and the same flattened key tuple — the positional values
followed by the `key=value` renderings in insertion order — and equality
implies equal hashes; mappings equal as mappings but inserted in different
orders (or a positional value colliding with a `key=value` rendering) are
compared through this flattened tuple, not componentwise. -/
theorem params_eq_key_characterization :
    (∀ P Q : Parameters,
      paramsEq P Q = true ↔
        P.kind = Q.kind ∧
          P.positional ++ P.keyed.map fmtKV
            = Q.positional ++ Q.keyed.map fmtKV) ∧
    (∀ P Q : Parameters, paramsEq P Q = true → paramsHash P = paramsHash Q)
    := by
  constructor
  · intro P Q
    simp [paramsEq, paramsKey, listArgsKwargs]
  · intro P Q h
    simp only [paramsHash]
    rw [paramsEq_key h]

/-- Witness for C2: a positional value `"k=v"` and a keyword pair `k=v`
flatten to the same key, making the two containers equal and hence
equal-hashed. -/
theorem params_eq_key_characterization_witness :
    paramsHash ⟨.options, ["k=v"], []⟩ = paramsHash ⟨.options, [], [("k", "v")]⟩
    :=
  params_eq_key_characterization.2 _ _ (by decide)

/-- C4 counterexample: an M×1 grid with M > 1 is not reshaped by `Vector` —
the 3×1 grid keeps 3 rows instead of becoming the claimed 1×3 row, and the
corresponding `ColumnVector` becomes 1×3 instead of the claimed 3×1. -/
theorem vector_flatten_counterexample :
    Grid.wf ⟨3, 1, [["1"], ["2"], ["3"]]⟩ = true ∧
    (mkVector ⟨3, 1, [["1"], ["2"], ["3"]]⟩ "p").matrix.rows = 3 ∧
    ¬ ((mkVector ⟨3, 1, [["1"], ["2"], ["3"]]⟩ "p").matrix.rows = 1 ∧
       (mkVector ⟨3, 1, [["1"], ["2"], ["3"]]⟩ "p").matrix.cols = 3) ∧
    ¬ ((mkColumnVector ⟨3, 1, [["1"], ["2"], ["3"]]⟩ "p").matrix.rows = 3 ∧
       (mkColumnVector ⟨3, 1, [["1"], ["2"], ["3"]]⟩ "p").matrix.cols = 1) :=
  by decide

/-- C4 amended: `Vector` reshapes the grid to the single row holding the
row-major flattening exactly when both dimensions exceed 1 and leaves the
grid unchanged otherwise (so a 1×N input is already the claimed 1×(M·N) row
but an M×1 input with M>1 stays a column); `ColumnVector` is always the
transpose of the corresponding `Vector` result. -/
theorem vector_reshape_shapes (g : Grid) (t : String) :
    (1 < g.rows ∧ 1 < g.cols →
      (mkVector g t).matrix = ⟨1, g.rows * g.cols, [g.data.flatten]⟩) ∧
    (¬ (1 < g.rows ∧ 1 < g.cols) → (mkVector g t).matrix = g) ∧
    (g.rows = 1 →
      (mkVector g t).matrix.rows = 1 ∧
      (mkVector g t).matrix.cols = g.rows * g.cols) ∧
    (mkColumnVector g t).matrix = ((mkVector g t).matrix).transpose ∧
    (mkColumnVector g t).matrix.rows = (mkVector g t).matrix.cols ∧
    (mkColumnVector g t).matrix.cols = (mkVector g t).matrix.rows := by
  refine ⟨?_, ?_, ?_, rfl, rfl, rfl⟩
  · intro h
    simp [mkVector, mkMatrix, vectorReshape, Grid.reshapeRow, h]
  · intro h
    simp [mkVector, mkMatrix, vectorReshape, h]
  · intro h
    have hn : ¬ (1 < g.rows ∧ 1 < g.cols) := by simp [h]
    constructor <;> simp [mkVector, mkMatrix, vectorReshape, hn, h]

/-- Witness for C4: a 2×2 grid is flattened to the 1×4 row. -/
theorem vector_reshape_shapes_witness :
    (mkVector ⟨2, 2, [["1", "2"], ["3", "4"]]⟩ "p").matrix
      = ⟨1, 4, [["1", "2", "3", "4"]]⟩ :=
  ((vector_reshape_shapes ⟨2, 2, [["1", "2"], ["3", "4"]]⟩ "p").1
      (by decide)).trans (by decide)

/-! ### Auxiliary lemmas for the `Matrix.dumps_content` row-join theorem -/

/-- Appending one more element to a nonempty join. -/
theorem joinWith_append_last (sep a : String) (l : List String) (h : l ≠ []) :
    joinWith sep (l ++ [a]) = joinWith sep l ++ sep ++ a := by
  induction l with
  | nil => exact absurd rfl h
  | cons x xs ih =>
    cases xs with
    | nil => rfl
    | cons y ys =>
      have hne : y :: ys ≠ [] := by simp
      show x ++ sep ++ joinWith sep ((y :: ys) ++ [a])
        = x ++ sep ++ joinWith sep (y :: ys) ++ sep ++ a
      rw [ih hne]
      simp [String.append_assoc]

/-- A left fold that emits the separator before every element but the
first builds the join of the mapped range. -/
theorem foldl_sep_join (s : String) (c : Nat → String) :
    ∀ (n : Nat) (acc : String),
      (List.range (n + 1)).foldl
          (fun a x => (if x ≠ 0 then a ++ s else a) ++ c x) acc
        = acc ++ joinWith s ((List.range (n + 1)).map c) := by
  intro n
  induction n with
  | zero =>
    intro acc
    have h1 : List.range 1 = [0] := by decide
    simp [h1, joinWith]
  | succ k ih =>
    intro acc
    rw [List.range_succ, List.foldl_append, ih, List.map_append]
    simp only [List.map_cons, List.map_nil]
    rw [joinWith_append_last s (c (k + 1)) _ (by simp)]
    simp [String.append_assoc]

/-- A left fold that appends a terminator after every element. -/
theorem foldl_trailing (R : Nat → String) (t : String) :
    ∀ (k : Nat) (acc : String),
      (List.range (k + 1)).foldl (fun a y => a ++ R y ++ t) acc
        = acc ++ joinWith t ((List.range (k + 1)).map R) ++ t := by
  intro k
  induction k with
  | zero =>
    intro acc
    have h1 : List.range 1 = [0] := by decide
    simp [h1, joinWith, String.append_assoc]
  | succ m ih =>
    intro acc
    rw [List.range_succ, List.foldl_append, ih, List.map_append]
    simp only [List.map_cons, List.map_nil]
    rw [joinWith_append_last t (R (m + 1)) _ (by simp)]
    simp [String.append_assoc]

/-- The inner loop of `Matrix.dumps_content` over one row: the cells joined
by the separator, plus the two-piece terminator exactly when `P` (the row is
not the last) holds. -/
theorem inner_fold_generic (s t1 t2 : String) (c : Nat → String) (P : Prop)
    [Decidable P] :
    ∀ (n : Nat) (acc : String),
      (List.range (n + 1)).foldl
          (fun a x =>
            if x = (n + 1) - 1 ∧ P then
              ((if x ≠ 0 then a ++ s else a) ++ c x) ++ t1 ++ t2
            else (if x ≠ 0 then a ++ s else a) ++ c x)
          acc
        = acc ++ joinWith s ((List.range (n + 1)).map c)
            ++ (if P then t1 ++ t2 else "") := by
  intro n acc
  cases n with
  | zero =>
    have h1 : List.range 1 = [0] := by decide
    by_cases hP : P <;> simp [h1, hP, joinWith, String.append_assoc]
  | succ k =>
    have hfront :
        (List.range (k + 1)).foldl
            (fun a x =>
              if x = (k + 1 + 1) - 1 ∧ P then
                ((if x ≠ 0 then a ++ s else a) ++ c x) ++ t1 ++ t2
              else (if x ≠ 0 then a ++ s else a) ++ c x)
            acc
          = (List.range (k + 1)).foldl
              (fun a x => (if x ≠ 0 then a ++ s else a) ++ c x) acc := by
      refine List.foldl_ext _ _ acc fun a x hx => ?_
      have hlt : x < k + 1 := List.mem_range.mp hx
      have hno : ¬ (x = (k + 1 + 1) - 1 ∧ P) := by
        rintro ⟨h1, _⟩
        omega
      rw [if_neg hno]
    rw [List.range_succ, List.foldl_append, hfront, foldl_sep_join,
      List.map_append]
    simp only [List.map_cons, List.map_nil]
    rw [joinWith_append_last s (c (k + 1)) _ (by simp)]
    by_cases hP : P <;> simp [hP, String.append_assoc]

/-- Indexing a list over the range of its length rebuilds the list. -/
theorem map_range_getD (l : List String) :
    (List.range l.length).map (fun x => l.getD x "") = l := by
  induction l with
  | nil => rfl
  | cons a xs ih =>
    rw [List.length_cons, List.range_succ_eq_map, List.map_cons, List.map_map]
    show a :: (List.range xs.length).map (fun x => xs.getD x "") = a :: xs
    rw [ih]

/-- Mapping a row function over the range of the row count rebuilds the
mapped rows. -/
theorem map_range_rows (d : List (List String)) (f : List String → String) :
    (List.range d.length).map (fun y => f (d.getD y [])) = d.map f := by
  induction d with
  | nil => rfl
  | cons a xs ih =>
    rw [List.length_cons, List.range_succ_eq_map, List.map_cons, List.map_map]
    show f a :: (List.range xs.length).map (fun y => f (xs.getD y [])) = (a :: xs).map f
    rw [ih, List.map_cons]

/-- C8: for every well-formed M×N grid (M, N ≥ 1), `Matrix.dumps_content`
joins the cells of each row with `&` and appends the row terminator `\\\\`
followed by `%` and a newline after every row except the last — the content
is the rows, each joined by `&`, interleaved with the terminator. -/
theorem matrix_dumps_content_rows (g : Grid) (t : String) (al : Option String)
    (hw : g.wf = true) (hr : 1 ≤ g.rows) (hc : 1 ≤ g.cols) :
    (mkMatrix g t al).dumpsContent
      = joinWith ("\\\\" ++ "%\n") (g.data.map (joinWith "&")) := by
  obtain ⟨m, hm⟩ : ∃ m, g.cols = m + 1 := ⟨g.cols - 1, by omega⟩
  obtain ⟨r, hrr⟩ : ∃ r, g.rows = r + 1 := ⟨g.rows - 1, by omega⟩
  have hwf := hw
  simp only [Grid.wf, Bool.and_eq_true, beq_iff_eq, List.all_eq_true] at hwf
  have hlen : g.data.length = g.rows := hwf.1
  have hrow : ∀ row ∈ g.data, row.length = g.cols := by
    intro row hmem
    simpa using hwf.2 row hmem
  have hcell : ∀ y, y < g.data.length →
      (List.range (m + 1)).map (g.cell y) = g.data.getD y [] := by
    intro y hy
    have hmem : g.data.getD y [] ∈ g.data := by
      rw [List.getD_eq_getElem g.data [] hy]
      exact List.getElem_mem hy
    have hl : (g.data.getD y []).length = m + 1 := by
      rw [hrow _ hmem, hm]
    rw [← hl]
    exact map_range_getD (g.data.getD y [])
  have base : (mkMatrix g t al).dumpsContent
      = (List.range g.rows).foldl
          (fun acc y =>
            (List.range g.cols).foldl
              (fun acc2 x =>
                if x = g.cols - 1 ∧ y ≠ g.rows - 1 then
                  ((if x ≠ 0 then acc2 ++ "&" else acc2) ++ g.cell y x)
                    ++ "\\\\" ++ "%\n"
                else (if x ≠ 0 then acc2 ++ "&" else acc2) ++ g.cell y x)
              acc)
          "" := rfl
  rw [base, hm, hrr]
  have hinner : ∀ (acc : String) (y : Nat), y ∈ List.range (r + 1) →
      (List.range (m + 1)).foldl
          (fun acc2 x =>
            if x = (m + 1) - 1 ∧ y ≠ (r + 1) - 1 then
              ((if x ≠ 0 then acc2 ++ "&" else acc2) ++ g.cell y x)
                ++ "\\\\" ++ "%\n"
            else (if x ≠ 0 then acc2 ++ "&" else acc2) ++ g.cell y x)
          acc
        = acc ++ joinWith "&" (g.data.getD y [])
            ++ (if y ≠ (r + 1) - 1 then "\\\\" ++ "%\n" else "") := by
    intro acc y hy
    rw [inner_fold_generic "&" "\\\\" "%\n" (g.cell y) (y ≠ (r + 1) - 1) m acc]
    rw [hcell y (by have := List.mem_range.mp hy; omega)]
  rw [List.foldl_ext _ _ "" hinner]
  have hmapall : (List.range (r + 1)).map
      (fun y => joinWith "&" (g.data.getD y []))
      = g.data.map (joinWith "&") := by
    have h2 : r + 1 = g.data.length := by omega
    rw [h2]
    exact map_range_rows g.data (joinWith "&")
  rw [List.range_succ, List.foldl_append]
  cases r with
  | zero =>
    simp only [List.range_zero, List.foldl_nil, List.foldl_cons]
    have h0 : ¬ ((0 : Nat) ≠ (0 + 1) - 1) := by omega
    rw [if_neg h0]
    have h1 : g.data.length = 1 := by omega
    obtain ⟨row, hdata⟩ := List.length_eq_one.mp h1
    rw [hdata]
    simp [joinWith]
  | succ rr =>
    have hfront :
        (List.range (rr + 1)).foldl
            (fun acc y =>
              acc ++ joinWith "&" (g.data.getD y [])
                ++ (if y ≠ (rr + 1 + 1) - 1 then "\\\\" ++ "%\n" else ""))
            ""
          = (List.range (rr + 1)).foldl
              (fun acc y =>
                acc ++ joinWith "&" (g.data.getD y []) ++ ("\\\\" ++ "%\n"))
              "" := by
      refine List.foldl_ext _ _ "" fun a y hy => ?_
      have hlt : y < rr + 1 := List.mem_range.mp hy
      have hne : y ≠ (rr + 1 + 1) - 1 := by omega
      rw [if_pos hne]
    rw [hfront, foldl_trailing]
    have hlast : ¬ ((rr + 1 : Nat) ≠ (rr + 1 + 1) - 1) := by omega
    simp only [List.foldl_cons, List.foldl_nil, if_neg hlast]
    rw [List.range_succ, List.map_append] at hmapall
    simp only [List.map_cons, List.map_nil] at hmapall
    have hne2 : ((List.range (rr + 1)).map
        (fun y => joinWith "&" (g.data.getD y []))) ≠ [] := by
      have hl2 : ((List.range (rr + 1)).map
          (fun y => joinWith "&" (g.data.getD y []))).length = rr + 1 := by
        simp
      intro hnil
      rw [hnil] at hl2
      simp at hl2
    rw [← hmapall, joinWith_append_last _ _ _ hne2]
    simp [String.append_assoc]

/-- Witness for C8: the 2×2 grid `[[1,2],[3,4]]` renders its content as
`1&2\\%\n3&4`. -/
theorem matrix_dumps_content_rows_witness :
    (mkMatrix ⟨2, 2, [["1", "2"], ["3", "4"]]⟩ "p" none).dumpsContent
      = "1&2\\\\%\n3&4" :=
  (matrix_dumps_content_rows ⟨2, 2, [["1", "2"], ["3", "4"]]⟩ "p" none
      (by decide) (by decide) (by decide)).trans (by decide)

end PyLatex
